import Mathlib

/-!
Verification of the Multitext line parser (`src/lib.rs`).

Lines are modelled as `List Char` (a Rust `&str` with the terminator already
stripped).  The parser `parse_lines` is embedded as `parseLines` below:
phase 1 (`phase1`) scans for the first line containing the literal substring
`"multitext header"` and derives the marker; phase 2 (a left fold of `step2`
followed by `finishP2`) accumulates named sections into an association-list
map with overwrite-on-insert semantics, mirroring `HashMap::insert`.
-/

namespace Multitext

/-- Unicode `White_Space` code points, as used by Rust's `char::is_whitespace`
(and hence `str::trim` / `trim_end`). -/
def isRustWhitespace (c : Char) : Bool :=
  (0x9 ≤ c.toNat && c.toNat ≤ 0xD) || c.toNat = 0x20 || c.toNat = 0x85 ||
  c.toNat = 0xA0 || c.toNat = 0x1680 ||
  (0x2000 ≤ c.toNat && c.toNat ≤ 0x200A) || c.toNat = 0x2028 ||
  c.toNat = 0x2029 || c.toNat = 0x202F || c.toNat = 0x205F || c.toNat = 0x3000

/-- Rust `str::trim_end`: strip trailing whitespace, keep leading whitespace. -/
def trimEnd (s : List Char) : List Char :=
  (s.reverse.dropWhile isRustWhitespace).reverse

/-- Rust `str::trim_start`: strip leading whitespace. -/
def trimStart (s : List Char) : List Char :=
  s.dropWhile isRustWhitespace

/-- Rust `str::trim`: strip whitespace from both ends. -/
def trim (s : List Char) : List Char :=
  trimEnd (trimStart s)

/-- Rust `str::find(needle)`: index of the first occurrence of `needle` as a
substring of `hay`, or `none`. -/
def findSubstr (needle hay : List Char) : Option Nat :=
  match hay with
  | [] => if needle.isPrefixOf ([] : List Char) then some 0 else none
  | _ :: rest =>
    if needle.isPrefixOf hay then some 0
    else Option.map (· + 1) (findSubstr needle rest)

/-- The error type of the crate (`struct Error` in `src/lib.rs`). -/
structure MtError where
  line_number : Option Nat
  filename : Option (List Char)
  error_message : List Char
deriving DecidableEq, Repr

/-- The result map (`type Map = HashMap<String, String>`), modelled as an
association list whose insert overwrites any existing entry for the key. -/
abbrev MtMap := List (List Char × List Char)

/-- Rust `HashMap::insert`: bind `k` to `v`, removing any previous binding of
`k`. -/
def mapInsert (m : MtMap) (k v : List Char) : MtMap :=
  (k, v) :: m.filter (fun p => decide (p.1 ≠ k))

/-- Map lookup (`HashMap` indexing). -/
def mapLookup (m : MtMap) (k : List Char) : Option (List Char) :=
  match m with
  | [] => none
  | (k', v) :: rest => if k' = k then some v else mapLookup rest k

/-- The declaration substring `"multitext header"`. -/
def headerChars : List Char := "multitext header".toList

/-- The message of the phase-1 failure. -/
def missingMsg : List Char := "missing multitext header".toList

/-- Phase 1 of `parse_lines`: the `loop` that searches for the line containing
`"multitext header"`.  `n` is the value of `line_number` before the loop body
runs; the counter is incremented before each fetch, so exhaustion after the
whole input reports `n + 1`.  On success it returns the marker (the text
before the match, right-trimmed) and the unconsumed lines. -/
def phase1 : List (List Char) → Nat → Except MtError (List Char × List (List Char))
  | [], n =>
    .error { line_number := some (n + 1), filename := none,
             error_message := missingMsg }
  | l :: rest, n =>
    match findSubstr headerChars l with
    | some i => .ok (trimEnd (l.take i), rest)
    | none => phase1 rest (n + 1)

/-- One iteration of the phase-2 `for` loop, acting on the state
`(map, name, text)`. -/
def step2 (mk : List Char) (st : MtMap × List Char × List Char)
    (l : List Char) : MtMap × List Char × List Char :=
  match st with
  | (m, name, text) =>
    if mk.isPrefixOf l then
      (mapInsert m name text, trim (l.drop mk.length), [])
    else
      (m, name, text ++ l ++ ['\n'])

/-- The phase-2 loop over the remaining lines. -/
def runLines (mk : List Char) (st : MtMap × List Char × List Char)
    (ls : List (List Char)) : MtMap × List Char × List Char :=
  List.foldl (step2 mk) st ls

/-- The final `map.insert(name, text)` after the loop. -/
def finishP2 (st : MtMap × List Char × List Char) : MtMap :=
  mapInsert st.1 st.2.1 st.2.2

/-- The function `parse_lines` of `src/lib.rs`, on a materialised list of
lines. -/
def parseLines (lines : List (List Char)) : Except MtError MtMap :=
  match phase1 lines 0 with
  | .error e => .error e
  | .ok (mk, rest) => .ok (finishP2 (runLines mk ([], headerChars, []) rest))

/-- The marker discovered by `parse_lines`, when phase 1 succeeds. -/
def markerOf (lines : List (List Char)) : Option (List Char) :=
  match phase1 lines 0 with
  | .ok (mk, _) => some mk
  | .error _ => none

/-- The body text of a section: each constituent line followed by `'\n'`. -/
def joinNl (ls : List (List Char)) : List Char :=
  (ls.map (fun l => l ++ ['\n'])).flatten

/-- Line number of an error result, `none` on success. -/
def errLine (r : Except MtError MtMap) : Option Nat :=
  match r with
  | .error e => e.line_number
  | .ok _ => none

/-- Message of an error result, empty on success. -/
def errMsg (r : Except MtError MtMap) : List Char :=
  match r with
  | .error e => e.error_message
  | .ok _ => []

/-- Whether a parse succeeded. -/
def isOk (r : Except MtError MtMap) : Bool :=
  match r with
  | .ok _ => true
  | .error _ => false

/-- Lookup in the map of a successful result. -/
def lookupOk (r : Except MtError MtMap) (k : List Char) : Option (List Char) :=
  match r with
  | .ok m => mapLookup m k
  | .error _ => none

/-- The caller-side error augmentation of `open_and_parse_file`
(`e.filename = Some(path)`). -/
def setFilename (e : MtError) (fn : List Char) : MtError :=
  { e with filename := some fn }

/-- The function `open_and_parse_file`, with the adapter's I/O abstracted
away: `lines` is
the content the buffered reader would deliver; on failure the caller attaches
the filename via `setFilename` and re-raises, exactly as the `or_else` does. -/
def openAndParseFile (fn : List Char) (lines : List (List Char)) :
    Except MtError MtMap :=
  match parseLines lines with
  | .ok m => .ok m
  | .error e => .error (setFilename e fn)

deriving instance DecidableEq for Except

/-! ### Association-list map lemmas -/

theorem lookup_insert_self (m : MtMap) (k v : List Char) :
    mapLookup (mapInsert m k v) k = some v := by
  simp [mapInsert, mapLookup]

theorem lookup_filter_ne (m : MtMap) (k k' : List Char) (h : k' ≠ k) :
    mapLookup (m.filter (fun p => decide (p.1 ≠ k))) k' = mapLookup m k' := by
  simp only [ne_eq, decide_not]
  induction m with
  | nil => rfl
  | cons p rest ih =>
    cases p with
    | mk a b =>
      by_cases hak : a = k
      · rw [List.filter_cons_of_neg (by simp [hak])]
        rw [ih]
        have hak' : ¬ a = k' := fun hc => h (by rw [← hc, hak])
        simp [mapLookup, hak']
      · rw [List.filter_cons_of_pos (by simp [hak])]
        by_cases hk' : a = k'
        · simp [mapLookup, hk']
        · simp [mapLookup, hk', ih]

theorem lookup_insert_ne (m : MtMap) (k v : List Char) (k' : List Char)
    (h : k' ≠ k) :
    mapLookup (mapInsert m k v) k' = mapLookup m k' := by
  simp only [mapInsert, mapLookup]
  rw [if_neg (fun hk => h hk.symm)]
  exact lookup_filter_ne m k k' h

theorem mem_insert (m : MtMap) (k v : List Char)
    (p : List Char × List Char) (hp : p ∈ mapInsert m k v) :
    p = (k, v) ∨ p ∈ m := by
  rcases List.mem_cons.mp hp with h | h
  · exact Or.inl h
  · exact Or.inr (List.mem_filter.mp h).1

theorem lookup_insert_isSome (m : MtMap) (k v k' : List Char)
    (h : (mapLookup m k').isSome) :
    (mapLookup (mapInsert m k v) k').isSome := by
  by_cases hk : k' = k
  · subst hk; rw [lookup_insert_self]; rfl
  · rwa [lookup_insert_ne m k v k' hk]

/-! ### Phase-1 lemmas -/

theorem phase1_nomatch (ls : List (List Char))
    (h : ∀ l ∈ ls, findSubstr headerChars l = none) (n : Nat) :
    phase1 ls n = .error
      { line_number := some (n + ls.length + 1),
        filename := none, error_message := missingMsg } := by
  induction ls generalizing n with
  | nil => simp [phase1]
  | cons l rest ih =>
    have hl : findSubstr headerChars l = none := h l (List.mem_cons_self l rest)
    have hrest : ∀ l' ∈ rest, findSubstr headerChars l' = none :=
      fun l' hl' => h l' (List.mem_cons_of_mem l hl')
    simp only [phase1, hl]
    rw [ih hrest (n + 1)]
    have harith : n + 1 + rest.length + 1 = n + (rest.length + 1) + 1 := by
      omega
    simp only [List.length_cons, harith]

theorem phase1_found (pre : List (List Char)) (l : List Char)
    (post : List (List Char)) (i : Nat)
    (hpre : ∀ l' ∈ pre, findSubstr headerChars l' = none)
    (hl : findSubstr headerChars l = some i) (n : Nat) :
    phase1 (pre ++ l :: post) n = .ok (trimEnd (l.take i), post) := by
  induction pre generalizing n with
  | nil => simp [phase1, hl]
  | cons p pre ih =>
    have hp : findSubstr headerChars p = none := hpre p (List.mem_cons_self p pre)
    have hpre' : ∀ l' ∈ pre, findSubstr headerChars l' = none :=
      fun l' h' => hpre l' (List.mem_cons_of_mem p h')
    simp only [List.cons_append, phase1, hp]
    exact ih hpre' (n + 1)

/-! ### Phase-2 lemmas -/

theorem step2_marker (mk : List Char) (m : MtMap) (name text l : List Char)
    (h : mk.isPrefixOf l = true) :
    step2 mk (m, name, text) l
      = (mapInsert m name text, trim (l.drop mk.length), []) := by
  simp [step2, h]

theorem step2_other (mk : List Char) (m : MtMap) (name text l : List Char)
    (h : mk.isPrefixOf l = false) :
    step2 mk (m, name, text) l = (m, name, text ++ l ++ ['\n']) := by
  simp [step2, h]

theorem runLines_append (mk : List Char) (st : MtMap × List Char × List Char)
    (a b : List (List Char)) :
    runLines mk st (a ++ b) = runLines mk (runLines mk st a) b :=
  List.foldl_append (step2 mk) st a b

theorem joinNl_cons (l : List Char) (ls : List (List Char)) :
    joinNl (l :: ls) = (l ++ ['\n']) ++ joinNl ls := by
  simp [joinNl]

theorem runLines_nomarker (mk : List Char) (ls : List (List Char))
    (h : ∀ l ∈ ls, mk.isPrefixOf l = false)
    (m : MtMap) (name text : List Char) :
    runLines mk (m, name, text) ls = (m, name, text ++ joinNl ls) := by
  induction ls generalizing text with
  | nil => simp [runLines, joinNl]
  | cons l rest ih =>
    have hl : mk.isPrefixOf l = false := h l (List.mem_cons_self l rest)
    have hrest : ∀ l' ∈ rest, mk.isPrefixOf l' = false :=
      fun l' h' => h l' (List.mem_cons_of_mem l h')
    show runLines mk (step2 mk (m, name, text) l) rest = _
    rw [step2_other mk m name text l hl, ih hrest]
    simp [joinNl_cons]

theorem lookup_finish_run_ne (mk : List Char) (k : List Char)
    (ls : List (List Char)) (m : MtMap) (name text : List Char)
    (hname : name ≠ k)
    (hls : ∀ l ∈ ls, mk.isPrefixOf l = true → trim (l.drop mk.length) ≠ k) :
    mapLookup (finishP2 (runLines mk (m, name, text) ls)) k = mapLookup m k := by
  induction ls generalizing m name text with
  | nil =>
    show mapLookup (mapInsert m name text) k = mapLookup m k
    exact lookup_insert_ne m name text k (fun h => hname h.symm) |>.trans rfl
  | cons l rest ih =>
    have hrest : ∀ l' ∈ rest, mk.isPrefixOf l' = true →
        trim (l'.drop mk.length) ≠ k :=
      fun l' h' => hls l' (List.mem_cons_of_mem l h')
    show mapLookup (finishP2 (runLines mk (step2 mk (m, name, text) l) rest)) k
      = mapLookup m k
    cases hpr : mk.isPrefixOf l with
    | true =>
      rw [step2_marker mk m name text l hpr]
      rw [ih (mapInsert m name text) (trim (l.drop mk.length)) []
        (hls l (List.mem_cons_self l rest) hpr) hrest]
      exact lookup_insert_ne m name text k (fun h => hname h.symm)
    | false =>
      rw [step2_other mk m name text l hpr]
      exact ih m name (text ++ l ++ ['\n']) hname hrest

theorem lookup_finish_run_isSome (mk : List Char) (k : List Char)
    (ls : List (List Char)) (m : MtMap) (name text : List Char)
    (h : (mapLookup m k).isSome) :
    (mapLookup (finishP2 (runLines mk (m, name, text) ls)) k).isSome := by
  induction ls generalizing m name text with
  | nil => exact lookup_insert_isSome m name text k h
  | cons l rest ih =>
    show (mapLookup (finishP2 (runLines mk (step2 mk (m, name, text) l) rest))
      k).isSome
    cases hpr : mk.isPrefixOf l with
    | true =>
      rw [step2_marker mk m name text l hpr]
      exact ih (mapInsert m name text) (trim (l.drop mk.length)) []
        (lookup_insert_isSome m name text k h)
    | false =>
      rw [step2_other mk m name text l hpr]
      exact ih m name (text ++ l ++ ['\n']) h

theorem name_in_finish_run (mk : List Char) (ls : List (List Char))
    (m : MtMap) (name text : List Char) :
    (mapLookup (finishP2 (runLines mk (m, name, text) ls)) name).isSome := by
  induction ls generalizing m name text with
  | nil =>
    show (mapLookup (mapInsert m name text) name).isSome
    rw [lookup_insert_self]; rfl
  | cons l rest ih =>
    show (mapLookup (finishP2 (runLines mk (step2 mk (m, name, text) l) rest))
      name).isSome
    cases hpr : mk.isPrefixOf l with
    | true =>
      rw [step2_marker mk m name text l hpr]
      refine lookup_finish_run_isSome mk name rest _ _ _ ?_
      rw [lookup_insert_self]; rfl
    | false =>
      rw [step2_other mk m name text l hpr]
      exact ih m name (text ++ l ++ ['\n'])

theorem lookup_run_last (mk : List Char) (k : List Char)
    (mid rest2 : List (List Char)) (m : MtMap) (text : List Char)
    (hmid : ∀ l ∈ mid, mk.isPrefixOf l = false)
    (hrest : ∀ l ∈ rest2, mk.isPrefixOf l = true → trim (l.drop mk.length) ≠ k)
    (hshape : rest2 = [] ∨ ∃ l t, rest2 = l :: t ∧ mk.isPrefixOf l = true) :
    mapLookup (finishP2 (runLines mk (m, k, text) (mid ++ rest2))) k
      = some (text ++ joinNl mid) := by
  rw [runLines_append, runLines_nomarker mk mid hmid m k text]
  rcases hshape with h0 | ⟨l, t, ht, hpr⟩
  · subst h0
    show mapLookup (mapInsert m k (text ++ joinNl mid)) k = _
    exact lookup_insert_self m k (text ++ joinNl mid)
  · subst ht
    show mapLookup (finishP2 (runLines mk
      (step2 mk (m, k, text ++ joinNl mid) l) t)) k = _
    rw [step2_marker mk m k (text ++ joinNl mid) l hpr]
    rw [lookup_finish_run_ne mk k t _ _ []
      (hrest l (List.mem_cons_self l t) hpr)
      (fun l' h' => hrest l' (List.mem_cons_of_mem l h'))]
    exact lookup_insert_self m k (text ++ joinNl mid)

theorem joinNl_snoc (ls : List (List Char)) (l : List Char) :
    joinNl (ls ++ [l]) = joinNl ls ++ (l ++ ['\n']) := by
  simp [joinNl]

theorem bodies_joinNl (mk : List Char) (ls : List (List Char))
    (m : MtMap) (name text : List Char)
    (hm : ∀ p ∈ m, ∃ bs, p.2 = joinNl bs) (ht : ∃ bs, text = joinNl bs) :
    ∀ p ∈ finishP2 (runLines mk (m, name, text) ls), ∃ bs, p.2 = joinNl bs := by
  induction ls generalizing m name text with
  | nil =>
    intro p hp
    rcases mem_insert m name text p hp with h | h
    · exact h ▸ ht
    · exact hm p h
  | cons l rest ih =>
    intro p hp
    have hp' : p ∈ finishP2 (runLines mk (step2 mk (m, name, text) l) rest) :=
      hp
    cases hpr : mk.isPrefixOf l with
    | true =>
      rw [step2_marker mk m name text l hpr] at hp'
      refine ih (mapInsert m name text) (trim (l.drop mk.length)) []
        ?_ ⟨[], rfl⟩ p hp'
      intro q hq
      rcases mem_insert m name text q hq with h | h
      · exact h ▸ ht
      · exact hm q h
    | false =>
      rw [step2_other mk m name text l hpr] at hp'
      refine ih m name (text ++ l ++ ['\n']) hm ?_ p hp'
      rcases ht with ⟨bs, hbs⟩
      exact ⟨bs ++ [l], by rw [joinNl_snoc, hbs, List.append_assoc]⟩

theorem joinNl_ends_newline (bs : List (List Char)) (h : joinNl bs ≠ []) :
    ∃ w, joinNl bs = w ++ ['\n'] := by
  induction bs with
  | nil => exact absurd rfl h
  | cons b bs ih =>
    rw [joinNl_cons]
    by_cases h0 : joinNl bs = []
    · exact ⟨b, by rw [h0, List.append_nil]⟩
    · rcases ih h0 with ⟨w, hw⟩
      exact ⟨(b ++ ['\n']) ++ w, by simp [hw]⟩

theorem nil_isPrefixOf (l : List Char) :
    ([] : List Char).isPrefixOf l = true := by
  cases l <;> rfl

theorem emptyMarker_bodies (ls : List (List Char)) (m : MtMap)
    (name : List Char) (hm : ∀ p ∈ m, p.2 = ([] : List Char)) :
    ∀ p ∈ finishP2 (runLines ([] : List Char) (m, name, []) ls),
      p.2 = ([] : List Char) := by
  induction ls generalizing m name with
  | nil =>
    intro p hp
    rcases mem_insert m name [] p hp with h | h
    · rw [h]
    · exact hm p h
  | cons l rest ih =>
    intro p hp
    have hp' : p ∈ finishP2 (runLines ([] : List Char)
        (step2 [] (m, name, []) l) rest) := hp
    rw [step2_marker [] m name [] l (nil_isPrefixOf l)] at hp'
    refine ih (mapInsert m name []) (trim (l.drop ([] : List Char).length))
      ?_ p hp'
    intro q hq
    rcases mem_insert m name [] q hq with h | h
    · rw [h]
    · exact hm q h

theorem emptyMarker_keys (ls : List (List Char)) (m : MtMap)
    (name : List Char) :
    ∀ l ∈ ls, (mapLookup (finishP2 (runLines ([] : List Char)
      (m, name, []) ls)) (trim l)).isSome := by
  induction ls generalizing m name with
  | nil => intro l hl; cases hl
  | cons l rest ih =>
    intro l' hl'
    have hstep : runLines ([] : List Char) (m, name, []) (l :: rest)
        = runLines [] (mapInsert m name [],
            trim (l.drop ([] : List Char).length), []) rest := by
      show runLines ([] : List Char) (step2 [] (m, name, []) l) rest = _
      rw [step2_marker [] m name [] l (nil_isPrefixOf l)]
    rcases List.mem_cons.mp hl' with h | h
    · subst h
      rw [hstep]
      exact name_in_finish_run [] rest (mapInsert m name [])
        (trim (l'.drop ([] : List Char).length)) []
    · rw [hstep]
      exact ih _ _ l' h

/-! ### Unfolding lemmas for the top-level parser -/

theorem runLines_cons (mk : List Char) (st : MtMap × List Char × List Char)
    (l : List Char) (ls : List (List Char)) :
    runLines mk st (l :: ls) = runLines mk (step2 mk st l) ls := rfl

theorem parseLines_eq_ok (lines : List (List Char)) (mk : List Char)
    (rest : List (List Char)) (h : phase1 lines 0 = .ok (mk, rest)) :
    parseLines lines
      = .ok (finishP2 (runLines mk ([], headerChars, []) rest)) := by
  simp [parseLines, h]

theorem parseLines_eq_error (lines : List (List Char)) (e : MtError)
    (h : phase1 lines 0 = .error e) :
    parseLines lines = .error e := by
  simp [parseLines, h]

theorem parseLines_ok_inv (lines : List (List Char)) (m : MtMap)
    (h : parseLines lines = .ok m) :
    ∃ mk rest, phase1 lines 0 = .ok (mk, rest)
      ∧ m = finishP2 (runLines mk ([], headerChars, []) rest) := by
  unfold parseLines at h
  cases hp : phase1 lines 0 with
  | error e => rw [hp] at h; cases h
  | ok pr =>
    rcases pr with ⟨mk, rest⟩
    rw [hp] at h
    simp only [Except.ok.injEq] at h
    exact ⟨mk, rest, rfl, h.symm⟩

theorem trailing_marker_lookup (mk : List Char)
    (st : MtMap × List Char × List Char) (ml : List Char)
    (h : mk.isPrefixOf ml = true) :
    mapLookup (finishP2 (runLines mk st [ml])) (trim (ml.drop mk.length))
      = some [] := by
  rcases st with ⟨m1, n1, t1⟩
  show mapLookup (finishP2 (step2 mk (m1, n1, t1) ml)) _ = _
  rw [step2_marker mk m1 n1 t1 ml h]
  exact lookup_insert_self _ _ _

/-! ### Claim theorems -/

/-- C1, counterexample: on the empty input `parse_lines` reports a
missing-header error with line number 1, not 0 as the claim states, because
the line counter is incremented before each fetch attempt. -/
theorem C1_counterexample :
    errLine (parseLines []) = some 1
      ∧ errMsg (parseLines []) = missingMsg
      ∧ (some 1 : Option Nat) ≠ some 0 :=
  ⟨rfl, rfl, by decide⟩

/-- C1, amended: for every input sequence in which no line contains the
substring "multitext header", `parse_lines` fails with a missing-header error
whose line number equals the total number of lines consumed plus one (the
counter is incremented before each fetch attempt); in particular, for the
empty sequence the error's line number is 1. -/
theorem C1_theorem (lines : List (List Char))
    (h : ∀ l ∈ lines, findSubstr headerChars l = none) :
    parseLines lines = .error
      { line_number := some (lines.length + 1), filename := none,
        error_message := missingMsg } := by
  have := phase1_nomatch lines h 0
  rw [Nat.zero_add] at this
  exact parseLines_eq_error lines _ this

/-- C1, witness: a concrete one-line input with no header line fails with
line number 2. -/
theorem C1_witness :
    parseLines [['a']] = .error
      { line_number := some 2, filename := none,
        error_message := missingMsg } :=
  C1_theorem [['a']] (by decide)

/-- C2: the marker used by `parse_lines` is determined from the first line
containing "multitext header": it is every character of that line strictly
before the matched substring's start index, right-trimmed (leading whitespace
preserved, as `trimEnd` strips only the right end); the lines after that line
are universally quantified, so no later line influences the marker. -/
theorem C2_theorem (pre : List (List Char)) (l : List Char)
    (post : List (List Char)) (i : Nat)
    (hpre : ∀ l' ∈ pre, findSubstr headerChars l' = none)
    (hl : findSubstr headerChars l = some i) :
    markerOf (pre ++ l :: post) = some (trimEnd (l.take i)) := by
  unfold markerOf
  rw [phase1_found pre l post i hpre hl 0]

/-- C2, witness: the marker of a concrete input whose third line is the first
header line. -/
theorem C2_witness :
    markerOf ([['z']] ++ ("## multitext header".toList :: [['q']]))
      = some (trimEnd ("## multitext header".toList.take 3)) :=
  C2_theorem [['z']] ("## multitext header".toList) [['q']] 3
    (by decide) (by decide)

/-- C3: in phase 2, a line starting with the marker closes the current
section (inserting it with overwrite semantics: the inserted name now maps
to the inserted body and no other key changes), the new name is the line
with the first `marker.length` characters removed and then trimmed, and the
body resets to empty; any other line is appended to the body followed by a
single newline. -/
theorem C3_theorem (mk : List Char) (m : MtMap) (name text l : List Char) :
    (mk.isPrefixOf l = true →
      step2 mk (m, name, text) l
        = (mapInsert m name text, trim (l.drop mk.length), [])
      ∧ mapLookup (mapInsert m name text) name = some text
      ∧ ∀ k, k ≠ name → mapLookup (mapInsert m name text) k = mapLookup m k)
    ∧ (mk.isPrefixOf l = false →
      step2 mk (m, name, text) l = (m, name, text ++ l ++ ['\n'])) := by
  constructor
  · intro h
    exact ⟨step2_marker mk m name text l h, lookup_insert_self m name text,
      fun k hk => lookup_insert_ne m name text k hk⟩
  · intro h
    exact step2_other mk m name text l h

/-- C3, witness: both branches of the phase-2 step evaluated on concrete
states. -/
theorem C3_witness :
    step2 ['#'] ([], headerChars, ['a']) ['#', 'x']
      = (mapInsert [] headerChars ['a'],
         trim (['#', 'x'].drop (['#'] : List Char).length), [])
    ∧ mapLookup (mapInsert [] headerChars ['a']) headerChars = some ['a']
    ∧ mapLookup (mapInsert [] headerChars ['a']) ['z'] = mapLookup [] ['z']
    ∧ step2 ['#'] ([], headerChars, ['a']) ['y']
      = ([], headerChars, ['a'] ++ ['y'] ++ ['\n']) := by
  have h0 := C3_theorem ['#'] [] headerChars ['a'] ['#', 'x']
  have h0y := C3_theorem ['#'] [] headerChars ['a'] ['y']
  have h1 := h0.1 (by decide)
  have h2 := h0y.2 (by decide)
  exact ⟨h1.1, h1.2.1, h1.2.2 ['z'] (by decide), h2⟩

/-- C4: on success the final (name, body) pair is inserted, so the map is
never empty; if no line after the header line starts with the marker, the
single entry is keyed "multitext header" with every remaining line as its
body; and a trailing marker line with nothing after it yields an entry with
an empty body. -/
theorem C4_theorem :
    (∀ lines m, parseLines lines = .ok m → 0 < m.length)
    ∧ (∀ lines mk rest, phase1 lines 0 = .ok (mk, rest) →
        (∀ l ∈ rest, mk.isPrefixOf l = false) →
        parseLines lines = .ok [(headerChars, joinNl rest)])
    ∧ (∀ lines mk init ml, phase1 lines 0 = .ok (mk, init ++ [ml]) →
        mk.isPrefixOf ml = true →
        ∃ m, parseLines lines = .ok m
          ∧ mapLookup m (trim (ml.drop mk.length)) = some []) := by
  refine ⟨?_, ?_, ?_⟩
  · intro lines m h
    rcases parseLines_ok_inv lines m h with ⟨mk, rest, _, hm⟩
    subst hm
    simp [finishP2, mapInsert]
  · intro lines mk rest h1 h2
    rw [parseLines_eq_ok lines mk rest h1,
      runLines_nomarker mk rest h2 [] headerChars []]
    rfl
  · intro lines mk init ml h1 h2
    refine ⟨_, parseLines_eq_ok lines mk (init ++ [ml]) h1, ?_⟩
    rw [runLines_append]
    exact trailing_marker_lookup mk _ ml h2

/-- C4, witness: a header-only section body, its nonempty map, and a
trailing marker line yielding an empty body, all on concrete inputs. -/
theorem C4_witness :
    parseLines ["# multitext header".toList, "abc".toList]
      = .ok [(headerChars, joinNl ["abc".toList])]
    ∧ 0 < ([(headerChars, joinNl ["abc".toList])] : MtMap).length
    ∧ ∃ m, parseLines ["#multitext header".toList, "#sec".toList] = .ok m
        ∧ mapLookup m (trim ("#sec".toList.drop ("#".toList).length))
            = some [] := by
  have hb := C4_theorem.2.1 ["# multitext header".toList, "abc".toList]
    ("#".toList) ["abc".toList] (by decide) (by decide)
  exact ⟨hb, C4_theorem.1 _ _ hb,
    C4_theorem.2.2 ["#multitext header".toList, "#sec".toList]
      ("#".toList) [] ("#sec".toList) (by decide) (by decide)⟩

/-- C5, counterexample: with input lines "###multitext header", "a",
"### multitext header", "b", the first header line is line 1 with prefix
"###" and the next line starting with "###" is line 3, so the claim says the
key "multitext header" maps to "a\n"; but the later section named
"multitext header" overwrites it, and the actual value is "b\n". -/
theorem C5_counterexample :
    isOk (parseLines ["###multitext header".toList, "a".toList,
        "### multitext header".toList, "b".toList]) = true
    ∧ lookupOk (parseLines ["###multitext header".toList, "a".toList,
        "### multitext header".toList, "b".toList]) headerChars
      = some ("b\n".toList)
    ∧ joinNl ["a".toList] = "a\n".toList
    ∧ some ("b\n".toList) ≠ some ("a\n".toList) :=
  ⟨by decide, by decide, by decide, by decide⟩

/-- C5, amended: for every input whose first line containing
"multitext header" has right-trimmed prefix P, parsing succeeds and, provided
no later line starting with P has a remainder that trims to
"multitext header", the mapping contains the key "multitext header" mapped to
the concatenation, each line followed by a newline, of all lines strictly
between the header line and the next line starting with P (or of all
remaining lines if no later line starts with P); without that proviso the
later section of the same name overwrites the entry. -/
theorem C5_theorem (pre : List (List Char)) (hl : List Char) (i : Nat)
    (mid rest2 : List (List Char))
    (hpre : ∀ l ∈ pre, findSubstr headerChars l = none)
    (hhl : findSubstr headerChars hl = some i)
    (hmid : ∀ l ∈ mid, (trimEnd (hl.take i)).isPrefixOf l = false)
    (hrest : ∀ l ∈ rest2, (trimEnd (hl.take i)).isPrefixOf l = true →
        trim (l.drop (trimEnd (hl.take i)).length) ≠ headerChars)
    (hshape : rest2 = [] ∨ ∃ l t, rest2 = l :: t
        ∧ (trimEnd (hl.take i)).isPrefixOf l = true) :
    ∃ m, parseLines (pre ++ hl :: (mid ++ rest2)) = .ok m
      ∧ mapLookup m headerChars = some (joinNl mid) := by
  have hp1 : phase1 (pre ++ hl :: (mid ++ rest2)) 0
      = .ok (trimEnd (hl.take i), mid ++ rest2) :=
    phase1_found pre hl (mid ++ rest2) i hpre hhl 0
  refine ⟨_, parseLines_eq_ok _ _ _ hp1, ?_⟩
  exact lookup_run_last (trimEnd (hl.take i)) headerChars mid rest2 [] []
    hmid hrest hshape

/-- C5, witness: a concrete input where the lines between the header line and
the next marker line form the body of the "multitext header" entry. -/
theorem C5_witness :
    ∃ m, parseLines (["z".toList] ++ ("## multitext header".toList ::
        (["aa".toList] ++ ["## s2".toList, "bb".toList]))) = .ok m
      ∧ mapLookup m headerChars = some (joinNl ["aa".toList]) :=
  C5_theorem ["z".toList] ("## multitext header".toList) 3
    ["aa".toList] ["## s2".toList, "bb".toList]
    (by decide) (by decide) (by decide) (by decide)
    (Or.inr ⟨"## s2".toList, ["bb".toList], rfl, by decide⟩)

/-- C6: when an earlier section header and a later one share the same trimmed
name `k` (the later one being the last with that name), the resulting
mapping's value for `k` is exactly the text accumulated after the later
occurrence, up to the next marker line or the end of input; the text after
the earlier occurrence is gone from the mapping under that key. -/
theorem C6_theorem (lines : List (List Char)) (mk : List Char)
    (b : List (List Char)) (ml : List Char) (mid rest2 : List (List Char))
    (k : List Char)
    (hsplit : phase1 lines 0 = .ok (mk, b ++ ml :: (mid ++ rest2)))
    (_hearlier : ∃ l1, l1 ∈ b ∧ mk.isPrefixOf l1 = true
        ∧ trim (l1.drop mk.length) = k)
    (hml : mk.isPrefixOf ml = true)
    (hname : trim (ml.drop mk.length) = k)
    (hmid : ∀ l ∈ mid, mk.isPrefixOf l = false)
    (hrest : ∀ l ∈ rest2, mk.isPrefixOf l = true →
        trim (l.drop mk.length) ≠ k)
    (hshape : rest2 = [] ∨ ∃ l t, rest2 = l :: t ∧ mk.isPrefixOf l = true) :
    ∃ m, parseLines lines = .ok m ∧ mapLookup m k = some (joinNl mid) := by
  refine ⟨_, parseLines_eq_ok _ _ _ hsplit, ?_⟩
  rw [runLines_append]
  rcases hst : runLines mk ([], headerChars, []) b with ⟨m1, n1, t1⟩
  rw [runLines_cons, step2_marker mk m1 n1 t1 ml hml, hname]
  exact lookup_run_last mk k mid rest2 (mapInsert m1 n1 t1) []
    hmid hrest hshape

/-- C6, witness: two sections named "dup"; the value is the body after the
second occurrence only. -/
theorem C6_witness :
    ∃ m, parseLines ["@multitext header".toList, "@dup".toList, "x".toList,
        "@dup".toList, "y".toList] = .ok m
      ∧ mapLookup m ("dup".toList) = some (joinNl ["y".toList]) :=
  C6_theorem ["@multitext header".toList, "@dup".toList, "x".toList,
      "@dup".toList, "y".toList] ("@".toList)
    ["@dup".toList, "x".toList] ("@dup".toList) ["y".toList] []
    ("dup".toList) (by decide)
    ⟨"@dup".toList, by decide, by decide, by decide⟩
    (by decide) (by decide) (by decide) (by decide) (Or.inl rfl)

/-- C7: when the discovered marker is the empty string (a degenerate case the
parser keeps, rather than rejecting), every remaining line literally starts
with that prefix, so every remaining line is treated as a marker line: each
starts a new section whose trimmed text becomes a key, and every body in the
resulting mapping is empty. -/
theorem C7_theorem (lines : List (List Char)) (rest : List (List Char))
    (h : phase1 lines 0 = .ok ([], rest)) :
    ∃ m, parseLines lines = .ok m
      ∧ (∀ l ∈ rest, ([] : List Char).isPrefixOf l = true)
      ∧ (∀ p ∈ m, p.2 = ([] : List Char))
      ∧ (∀ l ∈ rest, (mapLookup m (trim l)).isSome) := by
  refine ⟨_, parseLines_eq_ok _ _ _ h, fun l _ => nil_isPrefixOf l, ?_, ?_⟩
  · exact emptyMarker_bodies rest [] headerChars (by intro p hp; cases hp)
  · exact emptyMarker_keys rest [] headerChars

/-- C7, witness: a header line whose prefix is empty, followed by two lines;
both become empty-bodied sections. -/
theorem C7_witness :
    ∃ m, parseLines ["multitext header".toList, "ab".toList, " cd ".toList]
        = .ok m
      ∧ (∀ l ∈ (["ab".toList, " cd ".toList] : List (List Char)),
          ([] : List Char).isPrefixOf l = true)
      ∧ (∀ p ∈ m, p.2 = ([] : List Char))
      ∧ (∀ l ∈ (["ab".toList, " cd ".toList] : List (List Char)),
          (mapLookup m (trim l)).isSome) :=
  C7_theorem ["multitext header".toList, "ab".toList, " cd ".toList]
    ["ab".toList, " cd ".toList] (by decide)

/-- C8: `parse_lines` is deterministic: two runs on equal line sequences
produce identical results, the same mapping on success or errors with the
same line number and message on failure. -/
theorem C8_theorem (ls1 ls2 : List (List Char)) (h : ls1 = ls2) :
    parseLines ls1 = parseLines ls2 := by
  rw [h]

/-- C8, witness: determinism on a concrete sequence. -/
theorem C8_witness :
    parseLines [headerChars, ['a']] = parseLines [headerChars, ['a']] :=
  C8_theorem [headerChars, ['a']] [headerChars, ['a']] rfl

/-- C9: when `open_and_parse_file` fails, the error it returns is the parser
error with only the filename field set afterwards: its line number and
message are unchanged. -/
theorem C9_theorem (fn : List Char) (lines : List (List Char)) (e : MtError)
    (h : openAndParseFile fn lines = .error e) :
    ∃ e0, parseLines lines = .error e0
      ∧ e.line_number = e0.line_number
      ∧ e.error_message = e0.error_message
      ∧ e.filename = some fn := by
  unfold openAndParseFile at h
  cases hp : parseLines lines with
  | ok m => rw [hp] at h; cases h
  | error e0 =>
    rw [hp] at h
    simp only [Except.error.injEq] at h
    subst h
    exact ⟨e0, rfl, rfl, rfl, rfl⟩

/-- C9, witness: attaching a filename to the missing-header error of the
empty input keeps line number 1 and the message. -/
theorem C9_witness :
    ∃ e0, parseLines [] = .error e0
      ∧ (MtError.mk (some 1) (some ("f".toList)) missingMsg).line_number
          = e0.line_number
      ∧ (MtError.mk (some 1) (some ("f".toList)) missingMsg).error_message
          = e0.error_message
      ∧ (MtError.mk (some 1) (some ("f".toList)) missingMsg).filename
          = some ("f".toList) :=
  C9_theorem ("f".toList) [] (MtError.mk (some 1) (some ("f".toList))
    missingMsg) (by decide)

/-- C10: every body in a successfully parsed mapping is a concatenation of
zero or more lines each followed by exactly one newline; in particular a
non-empty body ends with a newline character. -/
theorem C10_theorem (lines : List (List Char)) (m : MtMap)
    (h : parseLines lines = .ok m) :
    ∀ p ∈ m, (∃ bs, p.2 = joinNl bs)
      ∧ (p.2 ≠ [] → ∃ w, p.2 = w ++ ['\n']) := by
  rcases parseLines_ok_inv lines m h with ⟨mk, rest, _, hm⟩
  intro p hp'
  have hb : ∃ bs, p.2 = joinNl bs := by
    subst hm
    exact bodies_joinNl mk rest [] headerChars []
      (by intro q hq; cases hq) ⟨[], rfl⟩ p hp'
  refine ⟨hb, ?_⟩
  intro hne
  rcases hb with ⟨bs, hbs⟩
  rcases joinNl_ends_newline bs (hbs ▸ hne) with ⟨w, hw⟩
  exact ⟨w, hbs.trans hw⟩

/-- C10, witness: the body "x\n" of a concrete parse is a newline-terminated
concatenation of lines. -/
theorem C10_witness :
    (∃ bs, ("x\n".toList : List Char) = joinNl bs)
    ∧ (("x\n".toList : List Char) ≠ [] →
        ∃ w, ("x\n".toList : List Char) = w ++ ['\n']) := by
  have h := C10_theorem ["#multitext header".toList, "x".toList]
    [(headerChars, "x\n".toList)] (by decide)
    (headerChars, "x\n".toList) (by decide)
  exact ⟨h.1, h.2⟩

end Multitext
